import Mathlib

/-!
Verification of the image status-lifecycle store (`src/state_manager.py`), the
metadata service (`src/metadata.py`) and the submission pipeline
(`src/submission_manager.py`) of the repository, via a shallow embedding.

Conventions of the embedding:
* The persisted mapping `self.db` (a Python `dict` keyed by S3 key) is an
  insertion-ordered association list `DB`; `dict` membership is `List.lookup`,
  `self.db[key] = ...` on a fresh key appends at the end, and assignment to an
  existing key rewrites the pair in place, exactly as CPython dicts behave.
* Remote effects (S3 listing, S3 download, the upscale call, the OpenAI chat
  call, the side-file write) are oracle parameters; a Python exception raised
  by such an effect is the oracle returning `Except.error`.
* Methods that may mutate state are written in state-passing style returning
  the new `DB` together with the number of successful side-file writes
  (`save_db` calls that completed).
* Timestamps (`datetime.now().isoformat()` and friends) are string parameters.
-/

/-! ## Character-list string helpers (Python `in`, `endswith`, `split`, `strip`) -/

/-- Bool test that `p` begins the list `l` (used for Python substring tests). -/
def leadsWith : List Char → List Char → Bool
  | [], _ => true
  | _ :: _, [] => false
  | a :: as, b :: bs => a == b && leadsWith as bs

/-- Bool test that `pat` occurs inside `l` (Python `pat in s`). -/
def subOf (pat : List Char) : List Char → Bool
  | [] => pat.isEmpty
  | l@(_ :: rest) => leadsWith pat l || subOf pat rest

/-- Python `pat in s` on strings. -/
def strHasSub (s pat : String) : Bool := subOf pat.data s.data

/-- Python `s.endswith(pat)`. -/
def strEndsW (s pat : String) : Bool := leadsWith pat.data.reverse s.data.reverse

/-- Python `s.split(sep)` for a one-character separator. -/
def splitChars (sep : Char) : List Char → List (List Char)
  | [] => [[]]
  | c :: cs =>
    let rest := splitChars sep cs
    if c == sep then [] :: rest
    else match rest with
      | [] => [[c]]
      | r :: rs => (c :: r) :: rs

/-- Python `s.strip()`: drop whitespace from both ends. -/
def stripChars (l : List Char) : List Char :=
  ((l.dropWhile Char.isWhitespace).reverse.dropWhile Char.isWhitespace).reverse

/-- Python `os.path.basename`: the segment after the last slash. -/
def basenameStr (s : String) : String :=
  ⟨(s.data.reverse.takeWhile (fun c => !(c == '/'))).reverse⟩

/-- Python `os.path.splitext(...)[0]`: drop the extension after the last dot, if any. -/
def stemStr (s : String) : String :=
  if s.data.contains '.' then ⟨((s.data.reverse.dropWhile (fun c => !(c == '.'))).drop 1).reverse⟩
  else s

/-- Decimal digits of a natural number, most significant first. -/
def natChars (n : Nat) : List Char :=
  let d := "0123456789".data.getD (n % 10) '0'
  if h : n < 10 then [d] else natChars (n / 10) ++ [d]
decreasing_by exact Nat.div_lt_self (Nat.lt_of_lt_of_le (by omega) (Nat.le_of_not_lt h)) (by omega)

/-- Python `f"\x7bidx:03d\x7d"`: decimal, left-padded with zeros to width 3. -/
def pad3 (n : Nat) : String :=
  ⟨List.replicate (3 - (natChars n).length) '0' ++ natChars n⟩

/-! ## Data model: `ImageRecord` and the persisted mapping `DB`

Records created by `scan_and_sync` carry `status`, `added_at`, `prompt`,
`tags`, `keyword`; `updated_at` is added by `update_status` and is therefore
optional.  `submission_id` is a field the repository's UI reads
(`app.py`, grouping of the registered gallery) but no code ever writes; it is
modelled as an `Option` that starts out `none`. -/

def STATUS_UNPROCESSED : String := "UNPROCESSED"

def STATUS_REGISTERED : String := "REGISTERED"

def STATUS_EXCLUDED : String := "EXCLUDED"

structure ImageRecord where
  status : String
  added_at : String
  updated_at : Option String
  prompt : String
  tags : String
  keyword : String
  submission_id : Option String
deriving DecidableEq, Repr

/-- The in-memory mapping `self.db`: insertion-ordered key/record pairs. -/
abbrev DB := List (String × ImageRecord)

/-- Rewrite the value stored at key `k` in place (Python `self.db[k] = r` for
an existing key): position and all other pairs are untouched. -/
def setRecord (db : DB) (k : String) (r : ImageRecord) : DB :=
  db.map (fun p => cond (p.1 == k) (p.1, r) p)

/-! ## `StateManager.update_status` (src/src/state_manager.py, lines 128-143)

For each path in `file_paths`: if the path is a key of `self.db`, set
`status := new_status` and `updated_at := now` and flip the `updated` flag,
otherwise print a warning.  After the loop, `save_db()` runs once iff
`updated`. -/

structure UpdSt where
  db : DB
  updated : Bool
  warns : Nat
deriving DecidableEq, Repr

def updateStep (now new_status : String) (acc : UpdSt) (path : String) : UpdSt :=
  match List.lookup path acc.db with
  | some r =>
    { acc with
      db := setRecord acc.db path { r with status := new_status, updated_at := some now },
      updated := true }
  | none => { acc with warns := acc.warns + 1 }

def update_status_run (now new_status : String) (db : DB) (file_paths : List String) : UpdSt :=
  file_paths.foldl (updateStep now new_status) ⟨db, false, 0⟩

/-- The method `update_status` in state-passing style: the final mapping, the number of
completed `save_db` writes, and the number of warnings printed. -/
def update_status_st (now : String) (db : DB) (file_paths : List String)
    (new_status : String) : DB × Nat × Nat :=
  let run := update_status_run now new_status db file_paths
  (run.db, (if run.updated then 1 else 0), run.warns)

/-! ## `StateManager.scan_and_sync` (src/src/state_manager.py, lines 46-80)

The method lists `output/`-keys from S3; every key that contains
`"generated_images/"` and ends with `".png"` is appended to `found_keys`, and
if it is not yet a key of `self.db` a fresh record with status `UNPROCESSED`
is inserted, with `added_at` from the object's `LastModified` and the
descriptive fields from `_extract_prompt_if_possible` (here the oracle
`extract`, which in the source reads the sidecar `prompt.csv` and returns
`("","","")` on any failure).  `save_db()` runs iff at least one record was
inserted.  The whole body, `save_db` included, sits inside
`try: ... except Exception`, modelled by `scan_and_sync_try` further down. -/

structure S3Obj where
  key : String
  lastModified : String
deriving DecidableEq, Repr

/-- The filter of the scan loop: `"generated_images/" in key and key.endswith(".png")`. -/
def isTargetKey (k : String) : Bool :=
  strHasSub k "generated_images/" && strEndsW k ".png"

/-- The record synthesized for a newly discovered key (state_manager.py lines 68-74). -/
def newRecord (extract : String → String × String × String) (obj : S3Obj) : ImageRecord :=
  { status := STATUS_UNPROCESSED
    added_at := obj.lastModified
    updated_at := none
    prompt := (extract obj.key).1
    tags := (extract obj.key).2.1
    keyword := (extract obj.key).2.2
    submission_id := none }

structure ScanSt where
  found : List String
  db : DB
  updated : Bool
deriving DecidableEq, Repr

def scanStep (extract : String → String × String × String) (acc : ScanSt) (obj : S3Obj) : ScanSt :=
  if isTargetKey obj.key then
    match List.lookup obj.key acc.db with
    | some _ => { acc with found := acc.found ++ [obj.key] }
    | none =>
      { found := acc.found ++ [obj.key]
        db := acc.db ++ [(obj.key, newRecord extract obj)]
        updated := true }
  else acc

def scan_and_sync_run (extract : String → String × String × String)
    (db : DB) (objects : List S3Obj) : ScanSt :=
  objects.foldl (scanStep extract) ⟨[], db, false⟩

/-- The method `scan_and_sync` in state-passing style (listing succeeded, side-file write
succeeded): the final mapping and the number of completed writes. -/
def scan_and_sync_st (extract : String → String × String × String)
    (db : DB) (objects : List S3Obj) : DB × Nat :=
  let run := scan_and_sync_run extract db objects
  (run.db, if run.updated then 1 else 0)

/-! ## Exception behaviour of `scan_and_sync` and `update_status` (C5)

`scan_and_sync` wraps its whole body — the S3 listing, the loop AND the
`save_db()` call — in `try: ... except Exception as e: print(...)`, so the
method never raises: `scan_and_sync_try` always returns `Except.ok`.
`update_status` has no handler around `save_db()`, so a write failure
propagates.  `listRes` is the outcome of `S3Manager.list_objects`; `saveRes`
is the outcome of `save_db` (the `open`/`json.dump` of the side-file). -/

def scan_and_sync_try (extract : String → String × String × String)
    (listRes : Except String (List S3Obj)) (saveRes : Except String Unit)
    (db : DB) : Except String (DB × Nat) :=
  Except.ok (match listRes with
    | .error _ => (db, 0)
    | .ok objects =>
      let run := scan_and_sync_run extract db objects
      if run.updated then
        match saveRes with
        | .ok _ => (run.db, 1)
        | .error _ => (run.db, 0)
      else (run.db, 0))

def update_status_try (now : String) (saveRes : Except String Unit)
    (db : DB) (file_paths : List String) (new_status : String) :
    Except String (DB × Nat) :=
  let run := update_status_run now new_status db file_paths
  if run.updated then
    match saveRes with
    | .ok _ => .ok (run.db, 1)
    | .error e => .error e
  else .ok (run.db, 0)

/-! ## `MetadataManager.get_image_metadata` (src/src/metadata.py, lines 12-74)

The remote chat call together with the JSON decode of the tool-call arguments
is the oracle `remote`; on any exception the method returns the fixed
fallback dictionary (metadata.py line 74). -/

structure MetaResult where
  title : String
  tags : String
  category : Int
deriving DecidableEq, Repr

def get_image_metadata (remote : Except String MetaResult)
    (generation_prompt : String) (user_tags : List String) : MetaResult :=
  match remote with
  | .ok args => args
  | .error _ =>
    { title := "タイトル生成エラー"
      tags := String.intercalate "," user_tags
      category := 8 }

/-! ## `SubmissionManager.process_submission` (src/src/submission_manager.py)

Items handed to the pipeline are mapping records annotated with their key
(`data.copy(); item["path"] = path`), the `Item` type below.  Oracles:
`upscaleR` is `ImageProcessor.upscale_image(input_key, output_key)` (S3
download + resize + S3 upload, may raise), `remoteOf` is the chat-completion
call inside `get_image_metadata`, `download` is `s3.download_file` when the
upscaled image is pulled back for the ZIP.  Each loop iteration is guarded by
`try: ... except Exception`: a raise from `_process_single_image` leaves the
accumulators untouched, while a raise from `download` happens *after* the
`csv_data`/`processed_file_paths` appends, which therefore survive. -/

structure Item where
  path : String
  status : String
  added_at : String
  updated_at : Option String
  prompt : String
  tags : String
  keyword : String
  submission_id : Option String
deriving DecidableEq, Repr

/-- Python `data.copy()` plus `item["path"] = path` (state_manager.py lines 118-122). -/
def annotate (path : String) (r : ImageRecord) : Item :=
  { path := path, status := r.status, added_at := r.added_at, updated_at := r.updated_at,
    prompt := r.prompt, tags := r.tags, keyword := r.keyword,
    submission_id := r.submission_id }

/-- Python `[t.strip() for t in stored_tags_str.split(",") if t.strip()]` with the
surrounding `if stored_tags_str else []` (submission_manager.py lines 135-139). -/
def parseTags (stored_tags_str : String) : List String :=
  if stored_tags_str == "" then []
  else ((splitChars ',' stored_tags_str.data).map
    (fun t => (⟨stripChars t⟩ : String))).filter (fun t => !(t == ""))

/-- Python `keyword.replace(" ", "_").replace("/", "")` (submission_manager.py line 50). -/
def sanitizeKeyword (keyword : String) : String :=
  ⟨(keyword.data.map (fun c => if c == ' ' then '_' else c)).filter (fun c => !(c == '/'))⟩

/-- Line `submission_prefix = f"submissions/\x7btimestamp\x7d_\x7bsafe_keyword\x7d"`
(submission_manager.py lines 50-51); `ts` is the formatted timestamp. -/
def batchPre (ts keyword : String) : String :=
  "submissions/" ++ ts ++ "_" ++ sanitizeKeyword keyword

structure CsvEntry where
  filename : String
  upscaled_filename : String
  title : String
  tags : String
  category : Int
  prompt : String
deriving DecidableEq, Repr

structure ProcRes where
  csv_entry : CsvEntry
  rel_path : String
  upscaled_key : String
  upscaled_filename : String
deriving DecidableEq, Repr

/-- Method `SubmissionManager._process_single_image` (lines 107-155): build the new
filename, run the upscale (fallible), fetch metadata, assemble the row. -/
def process_single_image
    (upscaleR : String → String → Except String Unit)
    (remoteOf : String → List String → Except String MetaResult)
    (subPre : String) (idx : Nat) (img_info : Item) : Except String ProcRes :=
  let input_key := img_info.path
  let original_basename := stemStr (basenameStr input_key)
  let new_filename := "upscaled_" ++ pad3 idx ++ "_" ++ original_basename ++ ".png"
  let output_key := subPre ++ "/" ++ new_filename
  match upscaleR input_key output_key with
  | .error e => .error e
  | .ok _ =>
    let prompt := img_info.prompt
    let stored_tags := parseTags img_info.tags
    let meta := get_image_metadata (remoteOf prompt stored_tags) prompt stored_tags
    .ok {
      csv_entry := {
        filename := basenameStr input_key
        upscaled_filename := new_filename
        title := meta.title
        tags := meta.tags
        category := meta.category
        prompt := prompt }
      rel_path := input_key
      upscaled_key := output_key
      upscaled_filename := new_filename }

structure LoopSt where
  csv_data : List CsvEntry
  processed : List String
  zipImgs : List (String × String)
  upCalls : Nat
  metaCalls : Nat
  dlCalls : Nat
deriving DecidableEq, Repr

/-- One iteration of the packaging loop (lines 62-79), `try`-guarded. -/
def submission_step
    (upscaleR : String → String → Except String Unit)
    (remoteOf : String → List String → Except String MetaResult)
    (download : String → Except String String)
    (subPre : String) (acc : LoopSt) (p : Nat × Item) : LoopSt :=
  match process_single_image upscaleR remoteOf subPre p.1 p.2 with
  | .error _ => { acc with upCalls := acc.upCalls + 1 }
  | .ok res =>
    match download res.upscaled_key with
    | .ok img_bytes =>
      { csv_data := acc.csv_data ++ [res.csv_entry]
        processed := acc.processed ++ [res.rel_path]
        zipImgs := acc.zipImgs ++ [(res.upscaled_filename, img_bytes)]
        upCalls := acc.upCalls + 1
        metaCalls := acc.metaCalls + 1
        dlCalls := acc.dlCalls + 1 }
    | .error _ =>
      { acc with
        csv_data := acc.csv_data ++ [res.csv_entry]
        processed := acc.processed ++ [res.rel_path]
        upCalls := acc.upCalls + 1
        metaCalls := acc.metaCalls + 1
        dlCalls := acc.dlCalls + 1 }

structure SubmitRow where
  Filename : String
  Title : String
  Keywords : String
  Category : Int
deriving DecidableEq, Repr

/-- The column renaming of lines 86-93. -/
def toSubmitRow (e : CsvEntry) : SubmitRow :=
  { Filename := e.upscaled_filename, Title := e.title, Keywords := e.tags,
    Category := e.category }

def intStr : Int → String
  | .ofNat n => ⟨natChars n⟩
  | .negSucc n => "-" ++ (⟨natChars (n + 1)⟩ : String)

/-- The serialized `submit.csv` (quoting/encoding details of `to_csv` abstracted). -/
def renderCsv (rows : List SubmitRow) : String :=
  String.intercalate "\n" ("Filename,Title,Keywords,Category"
    :: rows.map (fun r => r.Filename ++ "," ++ r.Title ++ "," ++ r.Keywords ++ ","
      ++ intStr r.Category))

structure SubOutcome where
  result : Option (List (String × String))
  manifest : List SubmitRow
  db : DB
  saves : Nat
  upCalls : Nat
  metaCalls : Nat
  dlCalls : Nat
  batchId : Option String
deriving DecidableEq, Repr

/-- Method `process_submission` (lines 27-105).  `result` is the ZIP content as a
list of named entries (`None` for an empty selection), `manifest` the rows of
`submit.csv`, `db`/`saves` the state-manager effects of step 5, the three
counters the number of upscale / metadata / ZIP-download attempts, and
`batchId` the `submission_prefix` if one was generated. -/
def process_submission
    (upscaleR : String → String → Except String Unit)
    (remoteOf : String → List String → Except String MetaResult)
    (download : String → Except String String)
    (now ts : String) (db : DB) (selected_images : List Item)
    (keyword : String) : SubOutcome :=
  if selected_images.isEmpty then
    { result := none, manifest := [], db := db, saves := 0,
      upCalls := 0, metaCalls := 0, dlCalls := 0, batchId := none }
  else
    let subPre := batchPre ts keyword
    let st := (selected_images.enum).foldl
      (submission_step upscaleR remoteOf download subPre) ⟨[], [], [], 0, 0, 0⟩
    let manifest := st.csv_data.map toSubmitRow
    let zipEntries := st.zipImgs
      ++ (if st.csv_data.isEmpty then [] else [("submit.csv", renderCsv manifest)])
    let upd :=
      if st.processed.isEmpty then (db, (0 : Nat))
      else
        let r := update_status_st now db st.processed STATUS_REGISTERED
        (r.1, r.2.1)
    { result := some zipEntries, manifest := manifest, db := upd.1, saves := upd.2,
      upCalls := st.upCalls, metaCalls := st.metaCalls, dlCalls := st.dlCalls,
      batchId := some subPre }

/-! ### Characterization of the packaging loop -/

def exOk : Except String ProcRes → Option ProcRes
  | .ok a => some a
  | .error _ => none

/-- The manifest row an enumerated item contributes (none when its
per-item processing raised). -/
def itemCsv (upscaleR : String → String → Except String Unit)
    (remoteOf : String → List String → Except String MetaResult)
    (subPre : String) (p : Nat × Item) : Option CsvEntry :=
  (exOk (process_single_image upscaleR remoteOf subPre p.1 p.2)).map (·.csv_entry)

/-- The key an enumerated item contributes to `processed_file_paths`. -/
def itemPath (upscaleR : String → String → Except String Unit)
    (remoteOf : String → List String → Except String MetaResult)
    (subPre : String) (p : Nat × Item) : Option String :=
  (exOk (process_single_image upscaleR remoteOf subPre p.1 p.2)).map (·.rel_path)

/-- The ZIP image entry an enumerated item contributes (requires both the
per-item processing and the download to succeed). -/
def itemZip (upscaleR : String → String → Except String Unit)
    (remoteOf : String → List String → Except String MetaResult)
    (download : String → Except String String)
    (subPre : String) (p : Nat × Item) : Option (String × String) :=
  match exOk (process_single_image upscaleR remoteOf subPre p.1 p.2) with
  | none => none
  | some res =>
    match download res.upscaled_key with
    | .ok img_bytes => some (res.upscaled_filename, img_bytes)
    | .error _ => none

/-! ## `StateManager.get_images_by_status` (src/src/state_manager.py, lines 113-126)

The method iterates `self.db` in insertion order, collects a copy of every
record whose status matches (annotated with its key), and then sorts the list
in place with `result.sort(key=lambda x: x.get("added_at", ""), reverse=True)`
— a stable sort, descending on the `added_at` string.  `insertDescAdded` below
is the standard stable insertion: an element is placed before the first
element whose `added_at` is `≤` its own, so earlier elements win ties. -/

def insertDescAdded (x : Item) : List Item → List Item
  | [] => [x]
  | y :: ys => if y.added_at ≤ x.added_at then x :: y :: ys else y :: insertDescAdded x ys

def sortDescAdded : List Item → List Item
  | [] => []
  | x :: xs => insertDescAdded x (sortDescAdded xs)

/-- The pre-sort collection pass of the method (lines 115-122). -/
def collectByStatus (db : DB) (status : String) : List Item :=
  db.filterMap (fun p => if p.2.status == status then some (annotate p.1 p.2) else none)

def get_images_by_status (db : DB) (status : String) : List Item :=
  sortDescAdded (collectByStatus db status)

/-- The method in state-passing style: it reads `self.db` only — the mapping
comes back unchanged and no `save_db` happens. -/
def get_images_by_status_st (db : DB) (status : String) : List Item × DB × Nat :=
  (get_images_by_status db status, db, 0)

/-! ## Claim C1 -/

def validStatuses : List String := [STATUS_UNPROCESSED, STATUS_REGISTERED, STATUS_EXCLUDED]

/-- A sequence of public `update_status` calls: each call carries its
`datetime.now()` string, its key list and its new status. -/
def applyUpdateCalls (db : DB) (calls : List (String × List String × String)) : DB :=
  calls.foldl (fun d c => (update_status_st c.1 d c.2.1 c.2.2).1) db

/-! ## Field characterization of `process_submission` (for C4 and C6) -/

/-- The manifest rows of the items whose per-item processing
(`_process_single_image`) succeeded, in order. -/
def succCsv (upscaleR : String → String → Except String Unit)
    (remoteOf : String → List String → Except String MetaResult)
    (ts keyword : String) (selected : List Item) : List CsvEntry :=
  selected.enum.filterMap (itemCsv upscaleR remoteOf (batchPre ts keyword))

/-- The keys of the items whose per-item processing succeeded
(`processed_file_paths`), in order. -/
def succPaths (upscaleR : String → String → Except String Unit)
    (remoteOf : String → List String → Except String MetaResult)
    (ts keyword : String) (selected : List Item) : List String :=
  selected.enum.filterMap (itemPath upscaleR remoteOf (batchPre ts keyword))

/-- The archive image entries: items whose processing AND whose ZIP download
succeeded, in order. -/
def succZips (upscaleR : String → String → Except String Unit)
    (remoteOf : String → List String → Except String MetaResult)
    (download : String → Except String String)
    (ts keyword : String) (selected : List Item) : List (String × String) :=
  selected.enum.filterMap (itemZip upscaleR remoteOf download (batchPre ts keyword))

/-! # Theorems -/

/-! ### Association-list lemmas -/

theorem lookup_setRecord_self (db : DB) (k : String) (r : ImageRecord) :
    List.lookup k (setRecord db k r) = (List.lookup k db).map (fun _ => r) := by
  induction db with
  | nil => rfl
  | cons p ps ih =>
    obtain ⟨a, b⟩ := p
    cases hb : (a == k) with
    | true =>
      have hk : (k == a) = true := beq_iff_eq.mpr (beq_iff_eq.mp hb).symm
      simp [setRecord, List.lookup, hb, hk]
    | false =>
      have hk : (k == a) = false :=
        beq_false_of_ne (fun h => absurd (beq_iff_eq.mpr h.symm) (by simp [hb]))
      simpa [setRecord, List.lookup, hb, hk] using ih

theorem lookup_setRecord_ne (db : DB) (k k' : String) (r : ImageRecord)
    (h : k' ≠ k) : List.lookup k' (setRecord db k r) = List.lookup k' db := by
  induction db with
  | nil => rfl
  | cons p ps ih =>
    obtain ⟨a, b⟩ := p
    cases hb : (a == k) with
    | true =>
      have hk : (k' == a) = false :=
        beq_false_of_ne (fun hh => h (hh.trans (beq_iff_eq.mp hb)))
      simpa [setRecord, List.lookup, hb, hk] using ih
    | false =>
      cases hk : (k' == a) with
      | true => simp [setRecord, List.lookup, hb, hk]
      | false => simpa [setRecord, List.lookup, hb, hk] using ih

theorem lookup_setRecord_isSome (db : DB) (k k' : String) (r : ImageRecord) :
    (List.lookup k' (setRecord db k r)).isSome = (List.lookup k' db).isSome := by
  by_cases h : k' = k
  · subst h; rw [lookup_setRecord_self]; cases List.lookup k' db <;> rfl
  · rw [lookup_setRecord_ne db k k' r h]

/-! ### Master lemma for the `update_status` loop -/

theorem updateStep_isSome (now st : String) (acc : UpdSt) (path k : String) :
    (List.lookup k (updateStep now st acc path).db).isSome
      = (List.lookup k acc.db).isSome := by
  unfold updateStep
  cases h : List.lookup path acc.db with
  | none => rfl
  | some r => exact lookup_setRecord_isSome acc.db path k _

theorem update_run_aux (now st : String) (file_paths : List String) (acc : UpdSt) :
    (∀ k, k ∉ file_paths →
      List.lookup k (file_paths.foldl (updateStep now st) acc).db = List.lookup k acc.db)
    ∧ (∀ k r, k ∈ file_paths → List.lookup k acc.db = some r →
        List.lookup k (file_paths.foldl (updateStep now st) acc).db
          = some { r with status := st, updated_at := some now })
    ∧ (∀ k, (List.lookup k (file_paths.foldl (updateStep now st) acc).db).isSome
        = (List.lookup k acc.db).isSome)
    ∧ ((file_paths.foldl (updateStep now st) acc).updated = true ↔
        (acc.updated = true ∨ ∃ p ∈ file_paths, (List.lookup p acc.db).isSome))
    ∧ ((file_paths.foldl (updateStep now st) acc).warns
        = acc.warns + (file_paths.filter (fun p => (List.lookup p acc.db).isNone)).length) := by
  induction file_paths generalizing acc with
  | nil =>
    refine ⟨fun k _ => rfl, fun k r h => absurd h (List.not_mem_nil k), fun k => rfl, ?_, rfl⟩
    simp
  | cons q qs ih =>
    obtain ⟨ih1, ih2, ih3, ih4, ih5⟩ := ih (updateStep now st acc q)
    have hstep_some : ∀ k, (List.lookup k (updateStep now st acc q).db).isSome
        = (List.lookup k acc.db).isSome := updateStep_isSome now st acc q
    simp only [List.foldl_cons]
    refine ⟨?_, ?_, ?_, ?_, ?_⟩
    · intro k hk
      have hkq : k ≠ q := fun h => hk (h ▸ List.mem_cons_self q qs)
      have hkqs : k ∉ qs := fun h => hk (List.mem_cons_of_mem q h)
      rw [ih1 k hkqs]
      unfold updateStep
      cases h : List.lookup q acc.db with
      | none => rfl
      | some r => exact lookup_setRecord_ne acc.db q k _ hkq
    · intro k r hk hlook
      rcases List.mem_cons.mp hk with hkq | hkqs
      · subst hkq
        have hstep : List.lookup k (updateStep now st acc k).db
            = some { r with status := st, updated_at := some now } := by
          unfold updateStep
          rw [hlook]
          simp only
          rw [lookup_setRecord_self, hlook]
          rfl
        by_cases hks : k ∈ qs
        · have := ih2 k { r with status := st, updated_at := some now } hks hstep
          simpa using this
        · rw [ih1 k hks, hstep]
      · by_cases hqk : q = k
        · subst hqk
          have hstep : List.lookup q (updateStep now st acc q).db
              = some { r with status := st, updated_at := some now } := by
            unfold updateStep
            rw [hlook]
            simp only
            rw [lookup_setRecord_self, hlook]
            rfl
          have := ih2 q { r with status := st, updated_at := some now } hkqs hstep
          simpa using this
        · have hstep : List.lookup k (updateStep now st acc q).db = some r := by
            unfold updateStep
            cases h : List.lookup q acc.db with
            | none => exact hlook
            | some r' =>
              simp only
              rw [lookup_setRecord_ne acc.db q k _ (Ne.symm hqk)]
              exact hlook
          exact ih2 k r hkqs hstep
    · intro k
      rw [ih3 k, hstep_some k]
    · rw [ih4]
      constructor
      · rintro (hacc | ⟨p, hp, hps⟩)
        · unfold updateStep at hacc
          revert hacc
          cases h : List.lookup q acc.db with
          | none =>
            intro hacc
            exact Or.inl hacc
          | some r =>
            intro _
            exact Or.inr ⟨q, List.mem_cons_self q qs, by rw [h]; rfl⟩
        · rw [hstep_some p] at hps
          exact Or.inr ⟨p, List.mem_cons_of_mem q hp, hps⟩
      · rintro (hacc | ⟨p, hp, hps⟩)
        · refine Or.inl ?_
          unfold updateStep
          cases List.lookup q acc.db with
          | none => exact hacc
          | some r => rfl
        · rcases List.mem_cons.mp hp with hpq | hpqs
          · subst hpq
            refine Or.inl ?_
            unfold updateStep
            revert hps
            cases List.lookup p acc.db with
            | none => intro h; exact absurd h (by simp)
            | some r => intro _; rfl
          · exact Or.inr ⟨p, hpqs, by rw [hstep_some p]; exact hps⟩
    · rw [ih5]
      have harg : ∀ p ∈ qs, ((List.lookup p (updateStep now st acc q).db).isNone : Bool)
          = (List.lookup p acc.db).isNone := by
        intro p _
        have hs := hstep_some p
        cases h1 : List.lookup p (updateStep now st acc q).db <;>
          cases h2 : List.lookup p acc.db <;> simp_all
      rw [List.filter_congr harg]
      cases h : List.lookup q acc.db with
      | none =>
        have hw : (updateStep now st acc q).warns = acc.warns + 1 := by
          unfold updateStep; rw [h]
        rw [hw]
        simp only [List.filter_cons, h, Option.isNone_none, if_true, List.length_cons]
        omega
      | some r =>
        have hw : (updateStep now st acc q).warns = acc.warns := by
          unfold updateStep; rw [h]
        rw [hw]
        simp [List.filter_cons, h]

/-! ### Lemmas on the scan loop -/

theorem scanStep_not_target (extract : String → String × String × String)
    (acc : ScanSt) (obj : S3Obj) (h : isTargetKey obj.key = false) :
    scanStep extract acc obj = acc := by
  unfold scanStep; rw [if_neg (by simp [h])]

theorem scanStep_present (extract : String → String × String × String)
    (acc : ScanSt) (obj : S3Obj) (r : ImageRecord)
    (ht : isTargetKey obj.key = true) (h : List.lookup obj.key acc.db = some r) :
    scanStep extract acc obj = { acc with found := acc.found ++ [obj.key] } := by
  unfold scanStep; rw [if_pos ht, h]

theorem scanStep_absent (extract : String → String × String × String)
    (acc : ScanSt) (obj : S3Obj)
    (ht : isTargetKey obj.key = true) (h : List.lookup obj.key acc.db = none) :
    scanStep extract acc obj
      = ⟨acc.found ++ [obj.key], acc.db ++ [(obj.key, newRecord extract obj)], true⟩ := by
  unfold scanStep; rw [if_pos ht, h]

theorem scanStep_lookup_mono (extract : String → String × String × String)
    (acc : ScanSt) (obj : S3Obj) (k : String) (r : ImageRecord)
    (h : List.lookup k acc.db = some r) :
    List.lookup k (scanStep extract acc obj).db = some r := by
  cases ht : isTargetKey obj.key with
  | false => rw [scanStep_not_target extract acc obj ht]; exact h
  | true =>
    cases hl : List.lookup obj.key acc.db with
    | some r' => rw [scanStep_present extract acc obj r' ht hl]; exact h
    | none =>
      rw [scanStep_absent extract acc obj ht hl]
      simp only
      rw [List.lookup_append, h]
      rfl

theorem scan_run_lookup_mono (extract : String → String × String × String)
    (objects : List S3Obj) (acc : ScanSt) (k : String) (r : ImageRecord)
    (h : List.lookup k acc.db = some r) :
    List.lookup k (objects.foldl (scanStep extract) acc).db = some r := by
  induction objects generalizing acc with
  | nil => exact h
  | cons o os ih =>
    rw [List.foldl_cons]
    exact ih (scanStep extract acc o) (scanStep_lookup_mono extract acc o k r h)

theorem scan_run_new_key (extract : String → String × String × String)
    (objects : List S3Obj) (acc : ScanSt) (k : String) (r' : ImageRecord)
    (habs : List.lookup k acc.db = none)
    (hres : List.lookup k (objects.foldl (scanStep extract) acc).db = some r') :
    ∃ obj ∈ objects, obj.key = k ∧ isTargetKey k = true ∧ r' = newRecord extract obj := by
  induction objects generalizing acc with
  | nil => rw [List.foldl_nil, habs] at hres; cases hres
  | cons o os ih =>
    rw [List.foldl_cons] at hres
    by_cases hstep : List.lookup k (scanStep extract acc o).db = none
    · obtain ⟨obj, hmem, hrest⟩ := ih (scanStep extract acc o) hstep hres
      exact ⟨obj, List.mem_cons_of_mem o hmem, hrest⟩
    · -- the step itself inserted k, so o is the witness
      obtain ⟨r₀, hr₀⟩ := Option.ne_none_iff_exists'.mp hstep
      have hval : List.lookup k (os.foldl (scanStep extract) (scanStep extract acc o)).db = some r₀ :=
        scan_run_lookup_mono extract os (scanStep extract acc o) k r₀ hr₀
      have hr' : r₀ = r' := by rw [hval] at hres; exact Option.some.inj hres
      subst hr'
      cases ht : isTargetKey o.key with
      | false =>
        rw [scanStep_not_target extract acc o ht] at hr₀
        rw [hr₀] at habs; cases habs
      | true =>
        cases hl : List.lookup o.key acc.db with
        | some r₁ =>
          rw [scanStep_present extract acc o r₁ ht hl] at hr₀
          simp only at hr₀
          rw [hr₀] at habs; cases habs
        | none =>
          rw [scanStep_absent extract acc o ht hl] at hr₀
          simp only at hr₀
          rw [List.lookup_append, habs, Option.none_or] at hr₀
          by_cases hok : k = o.key
          · subst hok
            simp only [List.lookup, beq_self_eq_true] at hr₀
            exact ⟨o, List.mem_cons_self o os, rfl, ht, (Option.some.inj hr₀).symm⟩
          · have hb : (k == o.key) = false := beq_false_of_ne hok
            simp only [List.lookup, hb] at hr₀
            cases hr₀

theorem lookup_append_single_self (db : DB) (k : String) (r : ImageRecord)
    (h : List.lookup k db = none) :
    List.lookup k (db ++ [(k, r)]) = some r := by
  rw [List.lookup_append, h]
  simp [List.lookup]

theorem scan_run_targets_present (extract : String → String × String × String)
    (objects : List S3Obj) (acc : ScanSt) :
    ∀ obj ∈ objects, isTargetKey obj.key = true →
      (List.lookup obj.key (objects.foldl (scanStep extract) acc).db).isSome = true := by
  induction objects generalizing acc with
  | nil => intro obj h; cases h
  | cons o os ih =>
    intro obj hmem ht
    rw [List.foldl_cons]
    rcases List.mem_cons.mp hmem with hobj | hos
    · subst hobj
      have hpres : ∃ r, List.lookup obj.key (scanStep extract acc obj).db = some r := by
        cases hl : List.lookup obj.key acc.db with
        | some r =>
          exact ⟨r, by rw [scanStep_present extract acc obj r ht hl]; exact hl⟩
        | none =>
          refine ⟨newRecord extract obj, ?_⟩
          rw [scanStep_absent extract acc obj ht hl]
          exact lookup_append_single_self acc.db obj.key _ hl
      obtain ⟨r, hr⟩ := hpres
      have := scan_run_lookup_mono extract os (scanStep extract acc obj) obj.key r hr
      rw [this]; rfl
    · exact ih (scanStep extract acc o) obj hos ht

theorem scan_run_noop (extract : String → String × String × String)
    (objects : List S3Obj) (acc : ScanSt)
    (h : ∀ obj ∈ objects, isTargetKey obj.key = true →
      (List.lookup obj.key acc.db).isSome = true) :
    (objects.foldl (scanStep extract) acc).db = acc.db
      ∧ (objects.foldl (scanStep extract) acc).updated = acc.updated := by
  induction objects generalizing acc with
  | nil => exact ⟨rfl, rfl⟩
  | cons o os ih =>
    rw [List.foldl_cons]
    have hstep : (scanStep extract acc o).db = acc.db
        ∧ (scanStep extract acc o).updated = acc.updated := by
      cases ht : isTargetKey o.key with
      | false => rw [scanStep_not_target extract acc o ht]; exact ⟨rfl, rfl⟩
      | true =>
        cases hl : List.lookup o.key acc.db with
        | some r => rw [scanStep_present extract acc o r ht hl]; exact ⟨rfl, rfl⟩
        | none =>
          have := h o (List.mem_cons_self o os) ht
          rw [hl] at this; cases this
    have hrest := ih (scanStep extract acc o)
      (fun obj hm ht => by rw [hstep.1]; exact h obj (List.mem_cons_of_mem o hm) ht)
    exact ⟨hrest.1.trans hstep.1, hrest.2.trans hstep.2⟩

theorem scan_run_updated_mono (extract : String → String × String × String)
    (objects : List S3Obj) (acc : ScanSt) (h : acc.updated = true) :
    (objects.foldl (scanStep extract) acc).updated = true := by
  induction objects generalizing acc with
  | nil => exact h
  | cons o os ih =>
    rw [List.foldl_cons]
    refine ih (scanStep extract acc o) ?_
    cases ht : isTargetKey o.key with
    | false => rw [scanStep_not_target extract acc o ht]; exact h
    | true =>
      cases hl : List.lookup o.key acc.db with
      | some r => rw [scanStep_present extract acc o r ht hl]; exact h
      | none => rw [scanStep_absent extract acc o ht hl]

theorem scan_run_updated_iff (extract : String → String × String × String)
    (objects : List S3Obj) (acc : ScanSt) :
    (objects.foldl (scanStep extract) acc).updated = true ↔
      (acc.updated = true
        ∨ ∃ obj ∈ objects, isTargetKey obj.key = true ∧ List.lookup obj.key acc.db = none) := by
  induction objects generalizing acc with
  | nil => simp
  | cons o os ih =>
    rw [List.foldl_cons]
    cases ht : isTargetKey o.key with
    | false =>
      rw [scanStep_not_target extract acc o ht, ih acc]
      constructor
      · rintro (h | ⟨obj, hm, hrest⟩)
        · exact Or.inl h
        · exact Or.inr ⟨obj, List.mem_cons_of_mem o hm, hrest⟩
      · rintro (h | ⟨obj, hm, hrest⟩)
        · exact Or.inl h
        · rcases List.mem_cons.mp hm with hobj | hos
          · subst hobj; rw [ht] at hrest; exact absurd hrest.1 (by simp)
          · exact Or.inr ⟨obj, hos, hrest⟩
    | true =>
      cases hl : List.lookup o.key acc.db with
      | some r =>
        rw [scanStep_present extract acc o r ht hl, ih _]
        simp only
        constructor
        · rintro (h | ⟨obj, hm, hrest⟩)
          · exact Or.inl h
          · exact Or.inr ⟨obj, List.mem_cons_of_mem o hm, hrest⟩
        · rintro (h | ⟨obj, hm, hrest⟩)
          · exact Or.inl h
          · rcases List.mem_cons.mp hm with hobj | hos
            · subst hobj; rw [hl] at hrest; exact absurd hrest.2 (by simp)
            · exact Or.inr ⟨obj, hos, hrest⟩
      | none =>
        rw [scanStep_absent extract acc o ht hl]
        constructor
        · intro _
          exact Or.inr ⟨o, List.mem_cons_self o os, ht, hl⟩
        · intro _
          exact scan_run_updated_mono extract os _ rfl

theorem submission_loop_spec
    (upscaleR : String → String → Except String Unit)
    (remoteOf : String → List String → Except String MetaResult)
    (download : String → Except String String)
    (subPre : String) (l : List (Nat × Item)) (acc : LoopSt) :
    (l.foldl (submission_step upscaleR remoteOf download subPre) acc).csv_data
      = acc.csv_data ++ l.filterMap (itemCsv upscaleR remoteOf subPre)
    ∧ (l.foldl (submission_step upscaleR remoteOf download subPre) acc).processed
      = acc.processed ++ l.filterMap (itemPath upscaleR remoteOf subPre)
    ∧ (l.foldl (submission_step upscaleR remoteOf download subPre) acc).zipImgs
      = acc.zipImgs ++ l.filterMap (itemZip upscaleR remoteOf download subPre) := by
  induction l generalizing acc with
  | nil => refine ⟨by simp, by simp, by simp⟩
  | cons p ps ih =>
    rw [List.foldl_cons]
    obtain ⟨ih1, ih2, ih3⟩ := ih (submission_step upscaleR remoteOf download subPre acc p)
    cases hp : process_single_image upscaleR remoteOf subPre p.1 p.2 with
    | error e =>
      have hstep : submission_step upscaleR remoteOf download subPre acc p
          = { acc with upCalls := acc.upCalls + 1 } := by
        simp [submission_step, hp]
      rw [hstep] at ih1 ih2 ih3
      refine ⟨?_, ?_, ?_⟩
      · rw [hstep, ih1]; simp [List.filterMap_cons, itemCsv, exOk, hp]
      · rw [hstep, ih2]; simp [List.filterMap_cons, itemPath, exOk, hp]
      · rw [hstep, ih3]; simp [List.filterMap_cons, itemZip, exOk, hp]
    | ok res =>
      cases hd : download res.upscaled_key with
      | ok img_bytes =>
        have hstep : submission_step upscaleR remoteOf download subPre acc p
            = { csv_data := acc.csv_data ++ [res.csv_entry]
                processed := acc.processed ++ [res.rel_path]
                zipImgs := acc.zipImgs ++ [(res.upscaled_filename, img_bytes)]
                upCalls := acc.upCalls + 1
                metaCalls := acc.metaCalls + 1
                dlCalls := acc.dlCalls + 1 } := by
          simp [submission_step, hp, hd]
        rw [hstep] at ih1 ih2 ih3
        refine ⟨?_, ?_, ?_⟩
        · rw [hstep, ih1]
          simp [List.filterMap_cons, itemCsv, exOk, hp]
        · rw [hstep, ih2]
          simp [List.filterMap_cons, itemPath, exOk, hp]
        · rw [hstep, ih3]
          simp [List.filterMap_cons, itemZip, exOk, hp, hd]
      | error e =>
        have hstep : submission_step upscaleR remoteOf download subPre acc p
            = { acc with
                csv_data := acc.csv_data ++ [res.csv_entry]
                processed := acc.processed ++ [res.rel_path]
                upCalls := acc.upCalls + 1
                metaCalls := acc.metaCalls + 1
                dlCalls := acc.dlCalls + 1 } := by
          simp [submission_step, hp, hd]
        rw [hstep] at ih1 ih2 ih3
        refine ⟨?_, ?_, ?_⟩
        · rw [hstep, ih1]
          simp [List.filterMap_cons, itemCsv, exOk, hp]
        · rw [hstep, ih2]
          simp [List.filterMap_cons, itemPath, exOk, hp]
        · rw [hstep, ih3]
          simp [List.filterMap_cons, itemZip, exOk, hp, hd]

/-! ### Sorting lemmas -/

theorem insertDescAdded_perm (x : Item) (l : List Item) :
    (insertDescAdded x l).Perm (x :: l) := by
  induction l with
  | nil => exact List.Perm.refl _
  | cons y ys ih =>
    unfold insertDescAdded
    by_cases h : y.added_at ≤ x.added_at
    · rw [if_pos h]
    · rw [if_neg h]
      exact (List.Perm.cons y ih).trans (List.Perm.swap x y ys)

theorem sortDescAdded_perm (l : List Item) : (sortDescAdded l).Perm l := by
  induction l with
  | nil => exact List.Perm.refl _
  | cons x xs ih =>
    exact (insertDescAdded_perm x (sortDescAdded xs)).trans (List.Perm.cons x ih)

theorem mem_insertDescAdded {z x : Item} {l : List Item}
    (h : z ∈ insertDescAdded x l) : z = x ∨ z ∈ l :=
  List.mem_cons.mp ((insertDescAdded_perm x l).subset h)

theorem insertDescAdded_sorted (x : Item) (l : List Item)
    (hl : l.Pairwise (fun a b => b.added_at ≤ a.added_at)) :
    (insertDescAdded x l).Pairwise (fun a b => b.added_at ≤ a.added_at) := by
  induction l with
  | nil => simp [insertDescAdded]
  | cons y ys ih =>
    unfold insertDescAdded
    by_cases h : y.added_at ≤ x.added_at
    · rw [if_pos h]
      refine List.Pairwise.cons ?_ hl
      intro z hz
      rcases List.mem_cons.mp hz with hzy | hzys
      · subst hzy; exact h
      · exact le_trans (List.rel_of_pairwise_cons hl hzys) h
    · rw [if_neg h]
      have hx : x.added_at ≤ y.added_at := le_of_not_le h
      refine List.Pairwise.cons ?_ (ih (List.Pairwise.of_cons hl))
      · intro z hz
        rcases mem_insertDescAdded hz with hzx | hzys
        · subst hzx; exact hx
        · exact List.rel_of_pairwise_cons hl hzys

theorem sortDescAdded_sorted (l : List Item) :
    (sortDescAdded l).Pairwise (fun a b => b.added_at ≤ a.added_at) := by
  induction l with
  | nil => exact List.Pairwise.nil
  | cons x xs ih => exact insertDescAdded_sorted x (sortDescAdded xs) ih

/-! ## Projection helpers -/

theorem update_status_st_fst (now : String) (db : DB) (fp : List String) (st : String) :
    (update_status_st now db fp st).1 = (fp.foldl (updateStep now st) ⟨db, false, 0⟩).db := rfl

theorem update_status_st_saves (now : String) (db : DB) (fp : List String) (st : String) :
    (update_status_st now db fp st).2.1
      = (if (fp.foldl (updateStep now st) ⟨db, false, 0⟩).updated then 1 else 0) := rfl

theorem update_status_st_warns (now : String) (db : DB) (fp : List String) (st : String) :
    (update_status_st now db fp st).2.2 = (fp.foldl (updateStep now st) ⟨db, false, 0⟩).warns := rfl

theorem scan_and_sync_st_fst (extract : String → String × String × String)
    (db : DB) (objects : List S3Obj) :
    (scan_and_sync_st extract db objects).1
      = (objects.foldl (scanStep extract) ⟨[], db, false⟩).db := rfl

theorem scan_and_sync_st_saves (extract : String → String × String × String)
    (db : DB) (objects : List S3Obj) :
    (scan_and_sync_st extract db objects).2
      = (if (objects.foldl (scanStep extract) ⟨[], db, false⟩).updated then 1 else 0) := rfl

/-! ## Claim C7 -/

/-- C7: for every list of keys and every target status, `update_status` sets
`status` to the target and refreshes `updated_at` for exactly those keys
present in the mapping, leaves every other record unchanged (and touches no
other field of the updated records — the record equality below fixes
`added_at`, `prompt`, `tags`, `keyword`, `submission_id`), skips absent keys
with one warning each instead of raising, and performs at most one
side-file write for the whole batch — exactly one iff some requested key
exists. -/
theorem update_status_spec (now : String) (db : DB) (file_paths : List String)
    (new_status : String) :
    (∀ k r, k ∈ file_paths → List.lookup k db = some r →
      List.lookup k (update_status_st now db file_paths new_status).1
        = some { r with status := new_status, updated_at := some now })
    ∧ (∀ k, k ∉ file_paths →
      List.lookup k (update_status_st now db file_paths new_status).1 = List.lookup k db)
    ∧ (update_status_st now db file_paths new_status).2.1 ≤ 1
    ∧ ((update_status_st now db file_paths new_status).2.1 = 1 ↔
        ∃ p ∈ file_paths, (List.lookup p db).isSome)
    ∧ (update_status_st now db file_paths new_status).2.2
        = (file_paths.filter (fun p => (List.lookup p db).isNone)).length := by
  obtain ⟨h1, h2, h3, h4, h5⟩ := update_run_aux now new_status file_paths ⟨db, false, 0⟩
  refine ⟨?_, ?_, ?_, ?_, ?_⟩
  · intro k r hk hl
    rw [update_status_st_fst]
    exact h2 k r hk hl
  · intro k hk
    rw [update_status_st_fst]
    exact h1 k hk
  · rw [update_status_st_saves]
    cases (file_paths.foldl (updateStep now new_status) ⟨db, false, 0⟩).updated <;> simp
  · rw [update_status_st_saves]
    constructor
    · intro h
      by_cases hu : (file_paths.foldl (updateStep now new_status) ⟨db, false, 0⟩).updated = true
      · rcases h4.mp hu with hfalse | hex
        · cases hfalse
        · exact hex
      · rw [if_neg hu] at h; cases h
    · intro hex
      have hu := h4.mpr (Or.inr hex)
      rw [if_pos hu]
  · rw [update_status_st_warns, h5]
    simp

/-- Witness for C7 at a concrete input: one existing key and one missing key,
target status `REGISTERED`. -/
theorem update_status_spec_witness :
    List.lookup "k1"
      (update_status_st "t1"
        [("k1", ⟨"UNPROCESSED", "2024-01-01", none, "p", "tg", "kw", none⟩)]
        ["k1", "missing"] "REGISTERED").1
      = some ⟨"REGISTERED", "2024-01-01", some "t1", "p", "tg", "kw", none⟩ :=
  (update_status_spec "t1"
      [("k1", ⟨"UNPROCESSED", "2024-01-01", none, "p", "tg", "kw", none⟩)]
      ["k1", "missing"] "REGISTERED").1 "k1"
    ⟨"UNPROCESSED", "2024-01-01", none, "p", "tg", "kw", none⟩
    (by decide) (by decide)

theorem update_status_record_cases (now : String) (db : DB) (file_paths : List String)
    (new_status : String) (k : String) (r' : ImageRecord)
    (h : List.lookup k (update_status_st now db file_paths new_status).1 = some r') :
    ∃ r, List.lookup k db = some r
      ∧ (r' = r ∨ r' = { r with status := new_status, updated_at := some now }) := by
  obtain ⟨h1, h2, h3, _, _⟩ := update_run_aux now new_status file_paths ⟨db, false, 0⟩
  rw [update_status_st_fst] at h
  by_cases hk : k ∈ file_paths
  · have hsome : (List.lookup k (⟨db, false, 0⟩ : UpdSt).db).isSome = true := by
      rw [← h3 k, h]; rfl
    obtain ⟨r, hr⟩ := Option.isSome_iff_exists.mp hsome
    refine ⟨r, hr, Or.inr ?_⟩
    have := h2 k r hk hr
    rw [h] at this
    exact Option.some.inj this
  · have := h1 k hk
    rw [h] at this
    exact ⟨r', this.symm, Or.inl rfl⟩

/-- C1 fails on the code as stated: the counterexample below is a single
public `update_status` call on a mapping whose only record is `REGISTERED`
that moves it directly to `EXCLUDED` — no transition-graph validation exists
in `update_status` (state_manager.py lines 128-143 assign `new_status`
verbatim). -/
theorem update_status_direct_registered_to_excluded :
    List.lookup "k1"
        (update_status_st "t2"
          [("k1", ⟨"REGISTERED", "2024-01-01", some "t1", "p", "tg", "kw", none⟩)]
          ["k1"] "EXCLUDED").1
      = some ⟨"EXCLUDED", "2024-01-01", some "t2", "p", "tg", "kw", none⟩ := by decide

/-- C1 amended: statuses do stay within the three enum values as long as
every call passes one of them (closure), but the store performs no
transition validation — any present key's status is overwritten verbatim
with the argument, so a direct `REGISTERED → EXCLUDED` (or reverse) move is
possible in one public call. -/
theorem update_status_status_closure :
    (∀ (calls : List (String × List String × String)) (db : DB),
      (∀ c ∈ calls, c.2.2 ∈ validStatuses) →
      (∀ k r, List.lookup k db = some r → r.status ∈ validStatuses) →
      ∀ k r', List.lookup k (applyUpdateCalls db calls) = some r' →
        r'.status ∈ validStatuses)
    ∧ (∀ now (db : DB) k r new_status, List.lookup k db = some r →
        List.lookup k (update_status_st now db [k] new_status).1
          = some { r with status := new_status, updated_at := some now }) := by
  constructor
  · intro calls
    induction calls with
    | nil =>
      intro db _ hdb k r' h
      exact hdb k r' h
    | cons c cs ih =>
      intro db hcalls hdb k r' h
      rw [applyUpdateCalls, List.foldl_cons] at h
      refine ih (update_status_st c.1 db c.2.1 c.2.2).1
        (fun c' hc' => hcalls c' (List.mem_cons_of_mem c hc')) ?_ k r' h
      intro k₀ r₀ h₀
      obtain ⟨r₁, hr₁, hcase⟩ := update_status_record_cases c.1 db c.2.1 c.2.2 k₀ r₀ h₀
      rcases hcase with hsame | hupd
      · subst hsame
        exact hdb k₀ r₀ hr₁
      · subst hupd
        exact hcalls c (List.mem_cons_self c cs)
  · intro now db k r new_status hl
    obtain ⟨_, h2, _, _, _⟩ := update_run_aux now new_status [k] ⟨db, false, 0⟩
    rw [update_status_st_fst]
    exact h2 k r (List.mem_cons_self k []) hl

/-- Witness for the amended C1 at a concrete input: the no-validation
conjunct applied to a `REGISTERED` record and target `EXCLUDED`. -/
theorem update_status_status_closure_witness :
    List.lookup "k9"
        (update_status_st "t3"
          [("k9", ⟨"REGISTERED", "2023-05-05", none, "", "", "", none⟩)]
          ["k9"] "EXCLUDED").1
      = some ⟨"EXCLUDED", "2023-05-05", some "t3", "", "", "", none⟩ :=
  update_status_status_closure.2 "t3"
    [("k9", ⟨"REGISTERED", "2023-05-05", none, "", "", "", none⟩)] "k9"
    ⟨"REGISTERED", "2023-05-05", none, "", "", "", none⟩ "EXCLUDED" (by decide)

/-! ## Claim C2 -/

/-- C2: reconciliation is monotonic additive — for every prior mapping and
every object listing, every key already present keeps its exact record
(status, `added_at`, `prompt`, `tags`, `keyword` all unchanged, and nothing
is removed), and every key that appears only after the scan was absent
before and carries a freshly synthesized record with status `UNPROCESSED`
(it is `newRecord` of some listed target object). -/
theorem scan_and_sync_monotonic (extract : String → String × String × String)
    (db : DB) (objects : List S3Obj) :
    (∀ k r, List.lookup k db = some r →
      List.lookup k (scan_and_sync_st extract db objects).1 = some r)
    ∧ (∀ k r', List.lookup k db = none →
        List.lookup k (scan_and_sync_st extract db objects).1 = some r' →
        r'.status = STATUS_UNPROCESSED
          ∧ ∃ obj ∈ objects, obj.key = k ∧ isTargetKey k = true
            ∧ r' = newRecord extract obj) := by
  constructor
  · intro k r hr
    rw [scan_and_sync_st_fst]
    exact scan_run_lookup_mono extract objects ⟨[], db, false⟩ k r hr
  · intro k r' habs hres
    rw [scan_and_sync_st_fst] at hres
    obtain ⟨obj, hmem, hkey, htgt, hrec⟩ :=
      scan_run_new_key extract objects ⟨[], db, false⟩ k r' habs hres
    exact ⟨by rw [hrec]; rfl, obj, hmem, hkey, htgt, hrec⟩

/-- Witness for C2 at a concrete input: a mapping with one record survives a
scan over a listing that contains its own key plus a new one. -/
theorem scan_and_sync_monotonic_witness :
    List.lookup "output/a/generated_images/i1.png"
      (scan_and_sync_st (fun _ => ("", "", ""))
        [("output/a/generated_images/i1.png",
          ⟨"REGISTERED", "2024-01-01", some "t1", "p", "tg", "kw", none⟩)]
        [⟨"output/a/generated_images/i1.png", "2024-01-01"⟩,
         ⟨"output/a/generated_images/i2.png", "2024-01-02"⟩]).1
      = some ⟨"REGISTERED", "2024-01-01", some "t1", "p", "tg", "kw", none⟩ :=
  (scan_and_sync_monotonic (fun _ => ("", "", ""))
      [("output/a/generated_images/i1.png",
        ⟨"REGISTERED", "2024-01-01", some "t1", "p", "tg", "kw", none⟩)]
      [⟨"output/a/generated_images/i1.png", "2024-01-01"⟩,
       ⟨"output/a/generated_images/i2.png", "2024-01-02"⟩]).1
    "output/a/generated_images/i1.png"
    ⟨"REGISTERED", "2024-01-01", some "t1", "p", "tg", "kw", none⟩ (by decide)

/-! ## Claim C3 -/

/-- C3: reconciliation is idempotent — a second `scan_and_sync` over the same
object listing leaves the mapping exactly as after the first run and performs
no side-file write; and in general the first run performs a write (exactly
one) iff the listing contains a target key that was absent from the mapping,
i.e. iff at least one new record was added. -/
theorem scan_and_sync_idempotent (extract : String → String × String × String)
    (db : DB) (objects : List S3Obj) :
    (scan_and_sync_st extract (scan_and_sync_st extract db objects).1 objects).1
      = (scan_and_sync_st extract db objects).1
    ∧ (scan_and_sync_st extract (scan_and_sync_st extract db objects).1 objects).2 = 0
    ∧ ((scan_and_sync_st extract db objects).2 = 1 ↔
        ∃ obj ∈ objects, isTargetKey obj.key = true ∧ List.lookup obj.key db = none) := by
  have hpresent : ∀ obj ∈ objects, isTargetKey obj.key = true →
      (List.lookup obj.key (objects.foldl (scanStep extract) (⟨[], db, false⟩ : ScanSt)).db).isSome = true :=
    scan_run_targets_present extract objects ⟨[], db, false⟩
  have hnoop := scan_run_noop extract objects
    ⟨[], (objects.foldl (scanStep extract) (⟨[], db, false⟩ : ScanSt)).db, false⟩
    (fun obj hm ht => hpresent obj hm ht)
  refine ⟨?_, ?_, ?_⟩
  · rw [scan_and_sync_st_fst, scan_and_sync_st_fst]
    exact hnoop.1
  · rw [scan_and_sync_st_saves, scan_and_sync_st_fst]
    rw [hnoop.2]
    rfl
  · rw [scan_and_sync_st_saves]
    have hiff := scan_run_updated_iff extract objects ⟨[], db, false⟩
    constructor
    · intro h
      by_cases hu : (objects.foldl (scanStep extract) (⟨[], db, false⟩ : ScanSt)).updated = true
      · rcases hiff.mp hu with hfalse | hex
        · cases hfalse
        · exact hex
      · rw [if_neg hu] at h; cases h
    · intro hex
      rw [if_pos (hiff.mpr (Or.inr hex))]

/-! ## Claim C5 -/

/-- C5 fails on the code as stated: `scan_and_sync` wraps its entire body,
the `save_db()` call included, in `try: ... except Exception` (state_manager.py
lines 51-80), so a side-file write failure during reconciliation does NOT
propagate.  Concretely: scanning one new object with a failing save returns
normally (`.ok`) with zero completed writes, even though the run added a
record and therefore attempted a write (`updated = true`). -/
theorem scan_and_sync_swallows_save_error :
    scan_and_sync_try (fun _ => ("", "", ""))
        (.ok [⟨"output/x/generated_images/i.png", "2024-01-01"⟩])
        (.error "disk full") []
      = .ok ([("output/x/generated_images/i.png",
          ⟨"UNPROCESSED", "2024-01-01", none, "", "", "", none⟩)], 0)
    ∧ (scan_and_sync_run (fun _ => ("", "", "")) []
        [⟨"output/x/generated_images/i.png", "2024-01-01"⟩]).updated = true := by
  constructor
  · rfl
  · decide

/-- C5 amended: a side-file write failure propagates out of `update_status`
(whenever the batch touched at least one existing key, the error is re-raised
to the caller), while `scan_and_sync` never raises at all — every error,
object-store or persistence alike, is swallowed and the method returns the
cached (possibly just-extended) mapping; in particular a listing failure
leaves the mapping exactly as cached. -/
theorem persistence_error_semantics :
    (∀ (now e : String) (db : DB) (file_paths : List String) (new_status : String),
      (update_status_run now new_status db file_paths).updated = true →
      update_status_try now (.error e) db file_paths new_status = .error e)
    ∧ (∀ (extract : String → String × String × String)
        (listRes : Except String (List S3Obj)) (saveRes : Except String Unit) (db : DB),
        ∃ v, scan_and_sync_try extract listRes saveRes db = .ok v)
    ∧ (∀ (extract : String → String × String × String) (e : String)
        (saveRes : Except String Unit) (db : DB),
        scan_and_sync_try extract (.error e) saveRes db = .ok (db, 0)) := by
  refine ⟨?_, ?_, ?_⟩
  · intro now e db fp st h
    simp [update_status_try, h]
  · intro extract listRes saveRes db
    exact ⟨_, rfl⟩
  · intro extract e saveRes db
    rfl

/-- Witness for the amended C5 at a concrete input: an update touching an
existing key with a failing side-file write raises. -/
theorem persistence_error_semantics_witness :
    update_status_try "t1" (.error "disk full")
        [("k1", ⟨"UNPROCESSED", "2024-01-01", none, "", "", "", none⟩)]
        ["k1"] "EXCLUDED"
      = .error "disk full" :=
  persistence_error_semantics.1 "t1" "disk full"
    [("k1", ⟨"UNPROCESSED", "2024-01-01", none, "", "", "", none⟩)]
    ["k1"] "EXCLUDED" (by decide)

/-! ## Claim C8 -/

/-- C8: when the remote metadata call raises, `get_image_metadata` returns
(rather than raising — the embedding is a total function whose value is the
line-74 fallback dictionary): title is the fixed error marker
`タイトル生成エラー`, the tags string is exactly the comma-join of the
mandatory tag list, and the category is 8.  Holds for every prompt and every
tag list. -/
theorem get_image_metadata_fallback (e generation_prompt : String)
    (user_tags : List String) :
    (get_image_metadata (.error e) generation_prompt user_tags).title = "タイトル生成エラー"
    ∧ (get_image_metadata (.error e) generation_prompt user_tags).tags
        = String.intercalate "," user_tags
    ∧ (get_image_metadata (.error e) generation_prompt user_tags).category = 8 :=
  ⟨rfl, rfl, rfl⟩

/-! ## Claim C9 -/

/-- C9: `process_submission` on an empty selection returns `None` immediately
— no batch identifier is generated, no upscale / metadata / download call is
made, no side-file write happens and the mapping is byte-for-byte
unchanged. -/
theorem process_submission_empty
    (upscaleR : String → String → Except String Unit)
    (remoteOf : String → List String → Except String MetaResult)
    (download : String → Except String String)
    (now ts : String) (db : DB) (keyword : String) :
    process_submission upscaleR remoteOf download now ts db [] keyword
      = { result := none, manifest := [], db := db, saves := 0,
          upCalls := 0, metaCalls := 0, dlCalls := 0, batchId := none } := rfl

/-! ## Claim C10 -/

/-- C10: `get_images_by_status` returns exactly the records whose status
equals the argument (each a copy annotated with its key, as a permutation of
— i.e. the same multiset as — the in-order collection pass, with membership
characterized against the mapping), sorted by `added_at` descending; and the
method neither mutates the mapping nor writes the side-file. -/
theorem get_images_by_status_spec (db : DB) (status : String) :
    (get_images_by_status db status).Perm (collectByStatus db status)
    ∧ (get_images_by_status db status).Pairwise (fun a b => b.added_at ≤ a.added_at)
    ∧ (∀ it, it ∈ get_images_by_status db status ↔
        ∃ p ∈ db, p.2.status = status ∧ it = annotate p.1 p.2)
    ∧ get_images_by_status_st db status = (get_images_by_status db status, db, 0) := by
  refine ⟨sortDescAdded_perm _, sortDescAdded_sorted _, ?_, rfl⟩
  intro it
  rw [show get_images_by_status db status = sortDescAdded (collectByStatus db status) from rfl,
    (sortDescAdded_perm _).mem_iff]
  unfold collectByStatus
  rw [List.mem_filterMap]
  constructor
  · rintro ⟨p, hp, hsome⟩
    cases hst : (p.2.status == status) with
    | true =>
      rw [if_pos hst] at hsome
      exact ⟨p, hp, beq_iff_eq.mp hst, (Option.some.inj hsome).symm⟩
    | false =>
      rw [if_neg (by simp [hst])] at hsome
      cases hsome
  · rintro ⟨p, hp, hst, hit⟩
    exact ⟨p, hp, by rw [if_pos (beq_iff_eq.mpr hst), hit]⟩

theorem process_submission_fields
    (upscaleR : String → String → Except String Unit)
    (remoteOf : String → List String → Except String MetaResult)
    (download : String → Except String String)
    (now ts : String) (db : DB) (selected : List Item) (keyword : String) :
    (process_submission upscaleR remoteOf download now ts db selected keyword).manifest
      = (succCsv upscaleR remoteOf ts keyword selected).map toSubmitRow
    ∧ (process_submission upscaleR remoteOf download now ts db selected keyword).db
      = (if (succPaths upscaleR remoteOf ts keyword selected).isEmpty then db
         else (update_status_st now db
            (succPaths upscaleR remoteOf ts keyword selected) STATUS_REGISTERED).1)
    ∧ (selected ≠ [] →
        (process_submission upscaleR remoteOf download now ts db selected keyword).result
          = some (succZips upscaleR remoteOf download ts keyword selected
              ++ (if (succCsv upscaleR remoteOf ts keyword selected).isEmpty then []
                  else [("submit.csv", renderCsv
                    ((succCsv upscaleR remoteOf ts keyword selected).map toSubmitRow))])))
    ∧ (process_submission upscaleR remoteOf download now ts db selected keyword).saves
      = (if (succPaths upscaleR remoteOf ts keyword selected).isEmpty then 0
         else (update_status_st now db
            (succPaths upscaleR remoteOf ts keyword selected) STATUS_REGISTERED).2.1) := by
  cases hsel : selected.isEmpty with
  | true =>
    have hnil : selected = [] := List.isEmpty_iff.mp hsel
    subst hnil
    exact ⟨rfl, rfl, fun h => absurd rfl h, rfl⟩
  | false =>
    obtain ⟨hc, hp, hz⟩ := submission_loop_spec upscaleR remoteOf download
      (batchPre ts keyword) selected.enum ⟨[], [], [], 0, 0, 0⟩
    have hcsv : ((selected.enum).foldl (submission_step upscaleR remoteOf download
        (batchPre ts keyword)) ⟨[], [], [], 0, 0, 0⟩).csv_data
        = succCsv upscaleR remoteOf ts keyword selected := by
      rw [hc]; rfl
    have hpaths : ((selected.enum).foldl (submission_step upscaleR remoteOf download
        (batchPre ts keyword)) ⟨[], [], [], 0, 0, 0⟩).processed
        = succPaths upscaleR remoteOf ts keyword selected := by
      rw [hp]; rfl
    have hzips : ((selected.enum).foldl (submission_step upscaleR remoteOf download
        (batchPre ts keyword)) ⟨[], [], [], 0, 0, 0⟩).zipImgs
        = succZips upscaleR remoteOf download ts keyword selected := by
      rw [hz]; rfl
    refine ⟨?_, ?_, ?_, ?_⟩
    · simp only [process_submission, hsel, Bool.false_eq_true, if_false]
      rw [hcsv]
    · simp only [process_submission, hsel, Bool.false_eq_true, if_false]
      rw [hpaths]
      by_cases hem : (succPaths upscaleR remoteOf ts keyword selected).isEmpty = true
      · rw [if_pos hem, if_pos hem]
      · rw [if_neg hem, if_neg hem]
    · intro _
      simp only [process_submission, hsel, Bool.false_eq_true, if_false]
      rw [hcsv, hzips]
    · simp only [process_submission, hsel, Bool.false_eq_true, if_false]
      rw [hpaths]
      by_cases hem : (succPaths upscaleR remoteOf ts keyword selected).isEmpty = true
      · rw [if_pos hem, if_pos hem]
      · rw [if_neg hem, if_neg hem]

/-! ## Claim C4 -/

/-- C4: per-item isolation in `process_submission`.  An exception raised in
an item's per-item processing (`_process_single_image`: resize, metadata,
manifest-row assembly) is caught and that item contributes no manifest row
and no archive entry, while the remaining items are still processed: the
manifest is exactly the rows of the items whose processing succeeded
(`succCsv`), the archive images are exactly the processed items whose ZIP
download also succeeded (`succZips`), and `update_status` afterwards receives
exactly the succeeded keys (`succPaths` — not the originally requested set):
every such key present in the mapping becomes `REGISTERED` with a fresh
`updated_at`, and every other key — in particular a failing item's key —
keeps its record unchanged (e.g. stays `UNPROCESSED`). -/
theorem process_submission_item_isolation
    (upscaleR : String → String → Except String Unit)
    (remoteOf : String → List String → Except String MetaResult)
    (download : String → Except String String)
    (now ts : String) (db : DB) (selected : List Item) (keyword : String) :
    (process_submission upscaleR remoteOf download now ts db selected keyword).manifest
      = (succCsv upscaleR remoteOf ts keyword selected).map toSubmitRow
    ∧ (selected ≠ [] →
        (process_submission upscaleR remoteOf download now ts db selected keyword).result
          = some (succZips upscaleR remoteOf download ts keyword selected
              ++ (if (succCsv upscaleR remoteOf ts keyword selected).isEmpty then []
                  else [("submit.csv", renderCsv
                    ((succCsv upscaleR remoteOf ts keyword selected).map toSubmitRow))])))
    ∧ (∀ k r, k ∈ succPaths upscaleR remoteOf ts keyword selected →
        List.lookup k db = some r →
        List.lookup k (process_submission upscaleR remoteOf download now ts db selected keyword).db
          = some { r with status := STATUS_REGISTERED, updated_at := some now })
    ∧ (∀ k, k ∉ succPaths upscaleR remoteOf ts keyword selected →
        List.lookup k (process_submission upscaleR remoteOf download now ts db selected keyword).db
          = List.lookup k db) := by
  obtain ⟨hman, hdb, hres, _⟩ :=
    process_submission_fields upscaleR remoteOf download now ts db selected keyword
  refine ⟨hman, hres, ?_, ?_⟩
  · intro k r hk hl
    rw [hdb]
    have hne : (succPaths upscaleR remoteOf ts keyword selected).isEmpty = false := by
      cases hp : (succPaths upscaleR remoteOf ts keyword selected).isEmpty with
      | false => rfl
      | true => rw [List.isEmpty_iff.mp hp] at hk; cases hk
    rw [if_neg (by simp [hne]), update_status_st_fst]
    obtain ⟨_, h2, _, _, _⟩ := update_run_aux now STATUS_REGISTERED
      (succPaths upscaleR remoteOf ts keyword selected) ⟨db, false, 0⟩
    exact h2 k r hk hl
  · intro k hk
    rw [hdb]
    by_cases hem : (succPaths upscaleR remoteOf ts keyword selected).isEmpty = true
    · rw [if_pos hem]
    · rw [if_neg hem, update_status_st_fst]
      obtain ⟨h1, _, _, _, _⟩ := update_run_aux now STATUS_REGISTERED
        (succPaths upscaleR remoteOf ts keyword selected) ⟨db, false, 0⟩
      exact h1 k hk

/-- Witness for C4 at a concrete input: two selected items where the resize
raises for key `k2` only — `k1` transitions to `REGISTERED`, `k2` keeps its
`UNPROCESSED` record. -/
theorem process_submission_item_isolation_witness :
    List.lookup "k1"
        (process_submission
          (fun ik _ => if ik == "k2" then .error "resize fail" else .ok ())
          (fun _ _ => .ok ⟨"T", "tg", 8⟩) (fun _ => .ok "B") "t1" "ts"
          [("k1", ⟨"UNPROCESSED", "2024-01-01", none, "", "", "", none⟩),
           ("k2", ⟨"UNPROCESSED", "2024-01-02", none, "", "", "", none⟩)]
          [⟨"k1", "UNPROCESSED", "2024-01-01", none, "", "", "", none⟩,
           ⟨"k2", "UNPROCESSED", "2024-01-02", none, "", "", "", none⟩] "kw").db
      = some ⟨"REGISTERED", "2024-01-01", some "t1", "", "", "", none⟩
    ∧ List.lookup "k2"
        (process_submission
          (fun ik _ => if ik == "k2" then .error "resize fail" else .ok ())
          (fun _ _ => .ok ⟨"T", "tg", 8⟩) (fun _ => .ok "B") "t1" "ts"
          [("k1", ⟨"UNPROCESSED", "2024-01-01", none, "", "", "", none⟩),
           ("k2", ⟨"UNPROCESSED", "2024-01-02", none, "", "", "", none⟩)]
          [⟨"k1", "UNPROCESSED", "2024-01-01", none, "", "", "", none⟩,
           ⟨"k2", "UNPROCESSED", "2024-01-02", none, "", "", "", none⟩] "kw").db
      = List.lookup "k2"
          [("k1", ⟨"UNPROCESSED", "2024-01-01", none, "", "", "", none⟩),
           ("k2", ⟨"UNPROCESSED", "2024-01-02", none, "", "", "", none⟩)] :=
  ⟨(process_submission_item_isolation
      (fun ik _ => if ik == "k2" then .error "resize fail" else .ok ())
      (fun _ _ => .ok ⟨"T", "tg", 8⟩) (fun _ => .ok "B") "t1" "ts"
      [("k1", ⟨"UNPROCESSED", "2024-01-01", none, "", "", "", none⟩),
       ("k2", ⟨"UNPROCESSED", "2024-01-02", none, "", "", "", none⟩)]
      [⟨"k1", "UNPROCESSED", "2024-01-01", none, "", "", "", none⟩,
       ⟨"k2", "UNPROCESSED", "2024-01-02", none, "", "", "", none⟩] "kw").2.2.1
      "k1" ⟨"UNPROCESSED", "2024-01-01", none, "", "", "", none⟩ (by decide) (by decide),
   (process_submission_item_isolation
      (fun ik _ => if ik == "k2" then .error "resize fail" else .ok ())
      (fun _ _ => .ok ⟨"T", "tg", 8⟩) (fun _ => .ok "B") "t1" "ts"
      [("k1", ⟨"UNPROCESSED", "2024-01-01", none, "", "", "", none⟩),
       ("k2", ⟨"UNPROCESSED", "2024-01-02", none, "", "", "", none⟩)]
      [⟨"k1", "UNPROCESSED", "2024-01-01", none, "", "", "", none⟩,
       ⟨"k2", "UNPROCESSED", "2024-01-02", none, "", "", "", none⟩] "kw").2.2.2
      "k2" (by decide)⟩

/-! ## Claim C6 -/

/-- C6 fails on the code as stated: here is a batch in which the single
item's processing succeeds and the pipeline's post-success transition is
applied to its record, a batch identifier is generated
(`submissions/2024-01-01T00-00-00_kw`), yet the stored record's
`submission_id` is still `none` rather than the batch identifier — no code
in the repository ever writes `submission_id` (`update_status`,
state_manager.py lines 128-143, assigns only `status` and `updated_at`; the
field is only read, in `app.py` line 356, where such records fall into the
`Legacy (No Batch Info)` group). -/
theorem process_submission_submission_id_cex :
    (process_submission (fun _ _ => .ok ()) (fun _ _ => .ok ⟨"T", "tg", 8⟩)
        (fun _ => .ok "B") "t1" "2024-01-01T00-00-00"
        [("k1", ⟨"UNPROCESSED", "2024-01-01", none, "", "", "", none⟩)]
        [⟨"k1", "UNPROCESSED", "2024-01-01", none, "", "", "", none⟩] "kw").batchId
      = some "submissions/2024-01-01T00-00-00_kw"
    ∧ List.lookup "k1"
        (process_submission (fun _ _ => .ok ()) (fun _ _ => .ok ⟨"T", "tg", 8⟩)
          (fun _ => .ok "B") "t1" "2024-01-01T00-00-00"
          [("k1", ⟨"UNPROCESSED", "2024-01-01", none, "", "", "", none⟩)]
          [⟨"k1", "UNPROCESSED", "2024-01-01", none, "", "", "", none⟩] "kw").db
      = some ⟨"REGISTERED", "2024-01-01", some "t1", "", "", "", none⟩ := by
  constructor
  · decide
  · decide

/-- C6 amended: when a record is attached to a submission batch (its key is
among the succeeded keys handed to the post-success `update_status`), only
`status` (set to `REGISTERED`) and `updated_at` change; the `submission_id`
field is never written — the record-update equality below keeps
`submission_id := r.submission_id` (which is `none` for every record the
repository creates), so no record ever carries the batch identifier. -/
theorem process_submission_submission_id_unchanged
    (upscaleR : String → String → Except String Unit)
    (remoteOf : String → List String → Except String MetaResult)
    (download : String → Except String String)
    (now ts : String) (db : DB) (selected : List Item) (keyword : String) :
    ∀ k r, k ∈ succPaths upscaleR remoteOf ts keyword selected →
      List.lookup k db = some r →
      List.lookup k (process_submission upscaleR remoteOf download now ts db selected keyword).db
        = some { r with status := STATUS_REGISTERED, updated_at := some now }
      ∧ ({ r with status := STATUS_REGISTERED, updated_at := some now } : ImageRecord).submission_id
        = r.submission_id := by
  intro k r hk hl
  obtain ⟨_, hdb, _, _⟩ :=
    process_submission_fields upscaleR remoteOf download now ts db selected keyword
  refine ⟨?_, rfl⟩
  rw [hdb]
  have hne : (succPaths upscaleR remoteOf ts keyword selected).isEmpty = false := by
    cases hp : (succPaths upscaleR remoteOf ts keyword selected).isEmpty with
    | false => rfl
    | true => rw [List.isEmpty_iff.mp hp] at hk; cases hk
  rw [if_neg (by simp [hne]), update_status_st_fst]
  obtain ⟨_, h2, _, _, _⟩ := update_run_aux now STATUS_REGISTERED
    (succPaths upscaleR remoteOf ts keyword selected) ⟨db, false, 0⟩
  exact h2 k r hk hl

/-- Witness for the amended C6 at a concrete input: the attached record's
`submission_id` stays `none`. -/
theorem process_submission_submission_id_unchanged_witness :
    List.lookup "k3"
        (process_submission (fun _ _ => .ok ()) (fun _ _ => .ok ⟨"T", "tg", 8⟩)
          (fun _ => .ok "B") "t9" "ts"
          [("k3", ⟨"UNPROCESSED", "2024-03-03", none, "", "", "", none⟩)]
          [⟨"k3", "UNPROCESSED", "2024-03-03", none, "", "", "", none⟩] "kw").db
      = some ⟨"REGISTERED", "2024-03-03", some "t9", "", "", "", none⟩ :=
  (process_submission_submission_id_unchanged (fun _ _ => .ok ())
      (fun _ _ => .ok ⟨"T", "tg", 8⟩) (fun _ => .ok "B") "t9" "ts"
      [("k3", ⟨"UNPROCESSED", "2024-03-03", none, "", "", "", none⟩)]
      [⟨"k3", "UNPROCESSED", "2024-03-03", none, "", "", "", none⟩] "kw"
      "k3" ⟨"UNPROCESSED", "2024-03-03", none, "", "", "", none⟩
      (by decide) (by decide)).1
